import Mathlib

/-!
Shallow embedding of the QR-ticket decoding and prize-matching core of the
gamza-lotto-app repository (src/utils.py, plus the best-of fold and the
label-assignment step of src/app.py).

Python strings are modelled as `List Char` (`Str`), Python ints as `Nat`/`Int`,
Python lists as `List`, Python dicts (which preserve insertion order) as
association lists `List (Str × _)`.  The decoder's `return None` failure paths
are modelled as a typed `Except` following the error taxonomy of the spec,
with one constructor per distinct `return None` site of `parse_qr_url`.
The process-global `random` module is modelled as an explicit stream
`RandSrc : Nat → Nat` of raw draws.

Character classes are modelled over the ASCII range: the `\d` of the
draw-number regex `^(\d+)` and the digits accepted by Python `int` are
modelled as the ASCII digits `'0'..'9'` (non-ASCII Unicode decimal digits are
outside the modelled character range), and percent-decoding treats each
decoded byte as one character, faithful for ASCII.
-/

namespace Lotto

abbrev Str := List Char

/-! ### Character / number primitives -/

/-- Numeric value of a decimal digit character (valid on `'0'..'9'`). -/
def charVal (c : Char) : Nat := c.toNat - 48

/-- Decimal digit character of a value `< 10` (Python `str` digit). -/
def digitChar (d : Nat) : Char := Char.ofNat (48 + d)

/-- Value of a string of decimal digits, as Python `int` computes it
(most significant digit first).  Models `int(draw_match.group(1))`. -/
def digitsToNat (ds : Str) : Nat := ds.foldl (fun a c => 10 * a + charVal c) 0

/-- Little-endian decimal digit characters of `n`, with explicit fuel so the
recursion is structural (kernel-reducible). -/
def natReprAux : Nat → Nat → List Char
  | 0, _ => []
  | _ + 1, 0 => []
  | fuel + 1, n + 1 => digitChar ((n + 1) % 10) :: natReprAux fuel ((n + 1) / 10)

/-- Decimal representation of a natural number: models Python `str(draw_number)`
(no sign, no leading zeros, `str(0) = "0"`). -/
def natRepr (n : Nat) : List Char :=
  if n = 0 then ['0'] else (natReprAux n n).reverse

/-- Whitespace stripped by Python `int(...)` around a numeric literal. -/
def isPySpace (c : Char) : Bool :=
  c = ' ' ∨ c = '\t' ∨ c = '\n' ∨ c = '\r' ∨ c = '\x0b' ∨ c = '\x0c'

/-- Model of Python `int(s)` on a short string: optional surrounding
whitespace, optional single sign, then a nonempty run of decimal digits;
anything else raises `ValueError`, modelled as `none`.  (Underscore digit
grouping needs a digit on both sides and so cannot occur in the 2-character
windows this model is applied to; non-ASCII digits are outside the modelled
character range.) -/
def pyIntOfStr (s : Str) : Option Int :=
  let t := ((s.dropWhile isPySpace).reverse.dropWhile isPySpace).reverse
  match t with
  | '+' :: ds => if ds ≠ [] ∧ ds.all Char.isDigit then some (digitsToNat ds) else none
  | '-' :: ds => if ds ≠ [] ∧ ds.all Char.isDigit then some (-(digitsToNat ds : Int)) else none
  | ds => if ds ≠ [] ∧ ds.all Char.isDigit then some (digitsToNat ds) else none

/-! ### URL query extraction (models `urlparse` + `parse_qs` as used on line 60-68) -/

/-- Hex digit value, as accepted by `urllib.parse.unquote`. -/
def hexVal? (c : Char) : Option Nat :=
  if '0' ≤ c ∧ c ≤ '9' then some (c.toNat - 48)
  else if 'a' ≤ c ∧ c ≤ 'f' then some (c.toNat - 87)
  else if 'A' ≤ c ∧ c ≤ 'F' then some (c.toNat - 55)
  else none

/-- Percent-decoding of `urllib.parse.unquote`: a `'%'` followed by two hex
digits becomes the character of that code; an invalid escape keeps the `'%'`
verbatim and scanning continues right after it.  (Each decoded byte is
modelled as one character, which is faithful for the ASCII range.) -/
def percentDecode : List Char → List Char
  | [] => []
  | '%' :: h1 :: h2 :: rest2 =>
    match hexVal? h1, hexVal? h2 with
    | some a, some b => Char.ofNat (16 * a + b) :: percentDecode rest2
    | _, _ => '%' :: percentDecode (h1 :: h2 :: rest2)
  | c :: rest => c :: percentDecode rest

/-- `urllib.parse.unquote(s.replace('+', ' '))` as `parse_qsl` applies it. -/
def unquotePlus (s : Str) : Str :=
  percentDecode (s.map (fun c => if c = '+' then ' ' else c))

/-- Split a string at every occurrence of the character `sep`, keeping empty
pieces — Python `str.split(sep)` semantics. -/
def splitOnChar (sep : Char) : List Char → List (List Char)
  | [] => [[]]
  | c :: rest =>
    match splitOnChar sep rest with
    | [] => [[]]
    | piece :: pieces =>
      if c = sep then [] :: piece :: pieces else (c :: piece) :: pieces

/-- The query component of a URL as `urlparse` returns it: everything after
the first `'?'` of the part that precedes the first `'#'`. -/
def queryOf (url : Str) : Str :=
  let noFrag := url.takeWhile (fun c => c ≠ '#')
  (noFrag.dropWhile (fun c => c ≠ '?')).drop 1

/-- One `name=value` field of a query string, as `parse_qsl` treats it with the
default `keep_blank_values=False`: fields without `'='` and fields with an
empty value are dropped. -/
def fieldToPair? (f : Str) : Option (Str × Str) :=
  if f = [] then none
  else
    let name := f.takeWhile (fun c => c ≠ '=')
    match f.dropWhile (fun c => c ≠ '=') with
    | [] => none
    | _ :: value =>
      if value = [] then none else some (unquotePlus name, unquotePlus value)

/-- `urllib.parse.parse_qsl` on a query string (default arguments). -/
def parse_qsl (qs : Str) : List (Str × Str) :=
  (splitOnChar '&' qs).filterMap fieldToPair?

/-- `query_params['v'][0]` when `'v' in query_params`, else `none`
(utils.py lines 60-68). -/
def getV? (url : Str) : Option Str :=
  match (parse_qsl (queryOf url)).filter (fun p => decide (p.1 = ['v'])) with
  | [] => none
  | p :: _ => some p.2

/-! ### The QR decoder (utils.py `parse_qr_url`, lines 47-134) -/

/-- Typed decode failure: one constructor per `return None` site of
`parse_qr_url`, named after the spec's error taxonomy.  `decodeFailed` covers
the final guard `if draw_number and len(numbers_list) > 0` (line 119). -/
inductive DecodeError
  | missingParameter
  | malformedDrawNumber
  | malformedSeparator
  | decodeFailed
  deriving DecidableEq, Repr

/-- Successful decode value: `{'draw_number': ..., 'numbers': [...]}`. -/
structure ParseResult where
  draw_number : Nat
  numbers : List (List Nat)
  deriving DecidableEq, Repr

/-- Python `sorted` on a list of numbers. -/
def pySorted (l : List Nat) : List Nat := l.insertionSort (· ≤ ·)

/-- Non-overlapping 2-character windows of a segment, dropping an incomplete
tail — the loop `for i in range(0, len(segment), 2): if i + 2 <= len(segment)`
(lines 100-101). -/
def window2 : Str → List Str
  | a :: b :: rest => [a, b] :: window2 rest
  | _ => []

/-- Numbers extracted from one segment (lines 99-109): each 2-character window
parsed by `int`, kept only when in `[1, 45]`; unparsable windows are skipped. -/
def extractNumbers (segment : Str) : List Nat :=
  (window2 segment).foldl
    (fun numbers w =>
      match pyIntOfStr w with
      | some num => if 1 ≤ num ∧ num ≤ 45 then numbers ++ [num.toNat] else numbers
      | none => numbers)
    []

/-- The per-window filter of lines 102-109 as an `Option`: the number kept
from one 2-character window, if any.  `extractNumbers` is proved equal to
`filterMap validNum` over the windows. -/
def validNum (w : Str) : Option Nat :=
  match pyIntOfStr w with
  | some num => if 1 ≤ num ∧ num ≤ 45 then some num.toNat else none
  | none => none

/-- The combination a segment contributes, if any: `sorted(numbers)` exactly
when the segment produced exactly 6 valid numbers (lines 111-116). -/
def segCombo? (segment : Str) : Option (List Nat) :=
  if (extractNumbers segment).length = 6 then some (pySorted (extractNumbers segment))
  else none

/-- The segment loop (lines 94-116): empty segments are skipped, a segment
contributes `sorted(numbers)` exactly when it produced exactly 6 valid
numbers, and other segments are silently dropped. -/
def collectCombos (segments : List Str) : List (List Nat) :=
  segments.foldl
    (fun numbers_list segment =>
      if segment = [] then numbers_list
      else if (extractNumbers segment).length = 6 then
        numbers_list ++ [pySorted (extractNumbers segment)]
      else numbers_list)
    []

/-- Body of `parse_qr_url` applied to the extracted `v` parameter value
(lines 71-128):
draw number = `int` of the longest leading digit run; the remainder is the
value with the first `len(str(draw_number))` characters removed; it must start
with `'s'`; segments are the pieces after splitting on `'s'` (the leading
empty piece discarded), at most the first 5 considered; the decode succeeds
iff the draw number is truthy (nonzero) and at least one combination was
collected. -/
def parse_v (v_param : Str) : Except DecodeError ParseResult :=
  let draw_digits := v_param.takeWhile Char.isDigit
  if draw_digits = [] then .error .malformedDrawNumber
  else
    let draw_number := digitsToNat draw_digits
    let remaining := v_param.drop (natRepr draw_number).length
    if remaining.head? = some 's' then
      let segments := (splitOnChar 's' remaining).drop 1
      let numbers_list := collectCombos (segments.take 5)
      if draw_number ≠ 0 ∧ numbers_list ≠ [] then
        .ok ⟨draw_number, numbers_list⟩
      else .error .decodeFailed
    else .error .malformedSeparator

/-- `parse_qr_url` (lines 47-134): extract the `v` query parameter, then
parse it.  All failure paths of the Python function `return None`; here each
is a distinct typed error. -/
def parse_qr_url (url : Str) : Except DecodeError ParseResult :=
  match getV? url with
  | none => .error .missingParameter
  | some v_param => parse_v v_param

/-! ### Prize evaluation (utils.py `check_winning`, lines 227-256) -/

def tier1 : Str := "1등".data
def tier2 : Str := "2등".data
def tier3 : Str := "3등".data
def tier4 : Str := "4등".data
def tier5 : Str := "5등".data
/-- `"낙첨"`, the no-win result. -/
def nolose : Str := "낙첨".data

/-- `check_winning(user_numbers, winning_numbers, bonus_number)`:
`match_count = len(set(user) & set(winning))`, `has_bonus = bonus in set(user)`,
then the tier ladder of lines 245-256. -/
def check_winning (user_numbers winning_numbers : List Nat) (bonus_number : Nat) : Str :=
  let match_count := (user_numbers.toFinset ∩ winning_numbers.toFinset).card
  let has_bonus := bonus_number ∈ user_numbers.toFinset
  if match_count = 6 then tier1
  else if match_count = 5 ∧ has_bonus then tier2
  else if match_count = 5 then tier3
  else if match_count = 4 then tier4
  else if match_count = 3 then tier5
  else nolose

/-- `int(result.replace("등", ""))` (app.py line 770): strip the tier suffix
character and convert with `int`.  Only evaluated on `"1등".."5등"` in the
source (both operands are guarded to differ from `"낙첨"`); the `getD 0`
default stands for the unreachable `ValueError`. -/
def tierNum (s : Str) : Int :=
  (pyIntOfStr (s.filter (fun c => c ≠ '등'))).getD 0

/-- One iteration of the best-of loop of app.py lines 764-771: compare the
combination's tier with the best tier seen so far. -/
def bestStep (winning_numbers : List Nat) (bonus_number : Nat)
    (best : Str) (lv : Str × List Nat) : Str :=
  let result := check_winning lv.2 winning_numbers bonus_number
  if result ≠ nolose then
    if best = nolose then result
    else if tierNum result < tierNum best then result
    else best
  else best

/-- The best-of fold of app.py lines 762-771: over the labelled combinations
of a bundle, keep the numerically smallest tier number seen, starting from
`"낙첨"`. -/
def best_result (combinations : List (Str × List Nat))
    (winning_numbers : List Nat) (bonus_number : Nat) : Str :=
  combinations.foldl (bestStep winning_numbers bonus_number) nolose

/-- Ordinal rank of a tier string: `"1등"` ↦ 1 … `"5등"` ↦ 5, anything else
(in particular `"낙첨"`) ↦ 6.  1st is best; used to state the best-of claim. -/
def tierRank (s : Str) : Nat :=
  if s = tier1 then 1
  else if s = tier2 then 2
  else if s = tier3 then 3
  else if s = tier4 then 4
  else if s = tier5 then 5
  else 6

/-! ### Number generation (utils.py lines 11-44 and 154-177) -/

/-- A stream of raw random draws, standing for the process-global `random`
module state.  The `i`-th drawn index is `g i` reduced mod the current pool
size. -/
abbrev RandSrc := Nat → Nat

/-- Model of `random.sample(population, k)`: repeatedly pick a position in the
remaining pool from the random stream and remove the picked element (removal
by value, which agrees with removal by position on the duplicate-free pools
the callers build).  Returns fewer than `k` elements only if the pool is
exhausted (the callers guard `len(available) >= 6`). -/
def random_sample (g : RandSrc) : Nat → Nat → List Nat → List Nat
  | _, 0, _ => []
  | _, _ + 1, [] => []
  | step, k + 1, x :: xs =>
    let chosen := (x :: xs).getD (g step % (x :: xs).length) 0
    chosen :: random_sample g (step + 1) k ((x :: xs).erase chosen)

/-- The label alphabet `labels = ["A", "B", "C", "D", "E"]`. -/
def labels : List Str := [['A'], ['B'], ['C'], ['D'], ['E']]

/-- `[n for n in range(1, 46) if n not in exclude]`. -/
def availableNumbers (exclude : List Nat) : List Nat :=
  (List.range' 1 45).filter (fun n => decide (n ∉ exclude))

/-- Result shape of `generate_lotto_numbers`: a bare list for `count == 1`,
an insertion-ordered label→numbers dict otherwise. -/
inductive GenResult
  | single (numbers : List Nat)
  | multi (combinations : List (Str × List Nat))
  deriving DecidableEq, Repr

/-- Whether a generator result is a labelled bundle (a dict) rather than a
bare combination list. -/
def GenResult.hasLabels : GenResult → Bool
  | .single _ => false
  | .multi _ => true

/-- `generate_lotto_numbers(exclude, count)` (utils.py lines 11-44): build the
pool (the full universe when `exclude` is falsy), return an empty result when
fewer than 6 numbers remain, a single sorted sample for `count == 1`, and a
labelled dict of sorted samples otherwise.  Iteration `i` of the loop consumes
draws `6*i .. 6*i+5` of the stream.  (`labels[i]` raises `IndexError` for
`count > 5`; the `getD` default stands in for that unreachable case — the UI
only passes `1 ≤ count ≤ 5`.) -/
def generate_lotto_numbers (g : RandSrc) (exclude : List Nat) (count : Nat) : GenResult :=
  let available :=
    if exclude ≠ [] then availableNumbers exclude
    else List.range' 1 45
  if available.length < 6 then
    if count = 1 then .single [] else .multi []
  else if count = 1 then .single (pySorted (random_sample g 0 6 available))
  else
    .multi ((List.range count).map
      (fun i => (labels.getD i [], pySorted (random_sample g (6 * i) 6 available))))

/-- `generate_excluding_numbers(excluded_numbers, count)` (utils.py lines
154-177): always a dict, empty when fewer than 6 numbers remain. -/
def generate_excluding_numbers (g : RandSrc) (excluded_numbers : List Nat)
    (count : Nat) : List (Str × List Nat) :=
  let available_numbers := availableNumbers excluded_numbers
  if available_numbers.length < 6 then []
  else
    (List.range count).map
      (fun i => (labels.getD i [], pySorted (random_sample g (6 * i) 6 available_numbers)))

/-- Label assignment for decoded combinations (app.py lines 345-354):
`numbers_dict = dict of labels[i] -> numbers_list[i]`, in parse order. -/
def label_combinations (numbers_list : List (List Nat)) : List (Str × List Nat) :=
  labels.zip numbers_list

/-- The all-zero random stream, used for concrete witnesses. -/
def g0 : RandSrc := fun _ => 0

/-! ### Basic characterization lemmas for the decoder -/

lemma pySorted_sorted (l : List Nat) : List.Sorted (· ≤ ·) (pySorted l) :=
  List.sorted_insertionSort _ l

lemma pySorted_perm (l : List Nat) : (pySorted l).Perm l :=
  List.perm_insertionSort _ l

lemma pySorted_length (l : List Nat) : (pySorted l).length = l.length :=
  List.length_insertionSort _ l

lemma pySorted_mem {a : Nat} {l : List Nat} : a ∈ pySorted l ↔ a ∈ l :=
  (pySorted_perm l).mem_iff

lemma extractNumbers_eq (segment : Str) :
    extractNumbers segment = (window2 segment).filterMap validNum := by
  unfold extractNumbers
  have h : ∀ (ws : List Str) (acc : List Nat),
      ws.foldl
        (fun numbers w =>
          match pyIntOfStr w with
          | some num => if 1 ≤ num ∧ num ≤ 45 then numbers ++ [num.toNat] else numbers
          | none => numbers)
        acc = acc ++ ws.filterMap validNum := by
    intro ws
    induction ws with
    | nil => simp
    | cons w ws ih =>
      intro acc
      simp only [List.foldl_cons, List.filterMap_cons]
      cases hw : pyIntOfStr w with
      | none => simp [validNum, hw, ih]
      | some num =>
        by_cases hr : 1 ≤ num ∧ num ≤ 45
        · simp [validNum, hw, hr, ih]
        · simp [validNum, hw, hr, ih]
  simpa using h (window2 segment) []

lemma validNum_bounds {w : Str} {n : Nat} (h : validNum w = some n) : 1 ≤ n ∧ n ≤ 45 := by
  unfold validNum at h
  cases hw : pyIntOfStr w with
  | none => rw [hw] at h; cases h
  | some num =>
    rw [hw] at h
    dsimp only at h
    split at h
    · rename_i hr
      cases h
      omega
    · cases h

lemma extractNumbers_bounds {segment : Str} {n : Nat} (h : n ∈ extractNumbers segment) :
    1 ≤ n ∧ n ≤ 45 := by
  rw [extractNumbers_eq] at h
  obtain ⟨w, -, hw⟩ := List.mem_filterMap.mp h
  exact validNum_bounds hw

lemma collectCombos_eq (segments : List Str) :
    collectCombos segments = segments.filterMap segCombo? := by
  unfold collectCombos
  have h : ∀ (segs : List Str) (acc : List (List Nat)),
      segs.foldl
        (fun numbers_list segment =>
          if segment = [] then numbers_list
          else if (extractNumbers segment).length = 6 then
            numbers_list ++ [pySorted (extractNumbers segment)]
          else numbers_list)
        acc = acc ++ segs.filterMap segCombo? := by
    intro segs
    induction segs with
    | nil => simp
    | cons seg segs ih =>
      intro acc
      simp only [List.foldl_cons, List.filterMap_cons]
      by_cases h0 : seg = []
      · subst h0
        have hseg : segCombo? ([] : Str) = none := by
          simp [segCombo?, extractNumbers, window2]
        simp [hseg, ih]
      · by_cases h6 : (extractNumbers seg).length = 6
        · simp [h0, h6, segCombo?, ih]
        · simp [h0, h6, segCombo?, ih]
  simpa using h segments []

lemma segCombo?_props {segment : Str} {combo : List Nat} (h : segCombo? segment = some combo) :
    combo.length = 6 ∧ List.Sorted (· ≤ ·) combo ∧ ∀ n ∈ combo, 1 ≤ n ∧ n ≤ 45 := by
  unfold segCombo? at h
  by_cases h6 : (extractNumbers segment).length = 6
  · rw [if_pos h6] at h
    cases h
    refine ⟨by rw [pySorted_length]; exact h6, pySorted_sorted _, ?_⟩
    intro n hn
    exact extractNumbers_bounds (pySorted_mem.mp hn)
  · rw [if_neg h6] at h; cases h

/-- Dissection of a successful `parse_v`. -/
lemma parse_v_ok {v : Str} {r : ParseResult} (h : parse_v v = .ok r) :
    v.takeWhile Char.isDigit ≠ [] ∧
    r.draw_number = digitsToNat (v.takeWhile Char.isDigit) ∧
    r.draw_number ≠ 0 ∧
    (v.drop (natRepr r.draw_number).length).head? = some 's' ∧
    r.numbers =
      collectCombos
        (((splitOnChar 's' (v.drop (natRepr r.draw_number).length)).drop 1).take 5) ∧
    r.numbers ≠ [] := by
  simp only [parse_v] at h
  split at h
  · cases h
  · rename_i hrun
    split at h
    · rename_i hsep
      split at h
      · rename_i hguard
        cases h
        exact ⟨hrun, rfl, hguard.1, hsep, rfl, hguard.2⟩
      · cases h
    · cases h

/-! ### Decimal representation lemmas (for the draw-number / separator claims) -/

lemma isDigit_toNat {c : Char} (h : c.isDigit = true) : 48 ≤ c.toNat ∧ c.toNat ≤ 57 := by
  have h' : ('0' ≤ c ∧ c ≤ '9') := by simpa [Char.isDigit] using h
  exact ⟨h'.1, h'.2⟩

lemma charVal_lt_ten {c : Char} (h : c.isDigit = true) : charVal c < 10 := by
  have := isDigit_toNat h
  unfold charVal
  omega

lemma digitChar_charVal {c : Char} (h : c.isDigit = true) : digitChar (charVal c) = c := by
  have hb := isDigit_toNat h
  unfold digitChar charVal
  have : 48 + (c.toNat - 48) = c.toNat := by omega
  rw [this, Char.ofNat_toNat]

lemma charVal_zero_iff {c : Char} (h : c.isDigit = true) : charVal c = 0 ↔ c = '0' := by
  constructor
  · intro h0
    have := digitChar_charVal h
    rw [h0] at this
    exact this.symm
  · intro h0
    subst h0
    rfl

lemma foldl_digits_ofDigits (ds : Str) (a : Nat) :
    ds.foldl (fun a c => 10 * a + charVal c) a
      = Nat.ofDigits 10 ((ds.map charVal).reverse) + a * 10 ^ ds.length := by
  induction ds generalizing a with
  | nil => simp [Nat.ofDigits_nil]
  | cons c ds ih =>
    simp only [List.foldl_cons, List.map_cons, List.reverse_cons, List.length_cons]
    rw [ih, Nat.ofDigits_append, Nat.ofDigits_singleton, List.length_reverse,
      List.length_map, pow_succ]
    ring

lemma digitsToNat_eq_ofDigits (ds : Str) :
    digitsToNat ds = Nat.ofDigits 10 ((ds.map charVal).reverse) := by
  unfold digitsToNat
  rw [foldl_digits_ofDigits]
  simp

lemma digitsToNat_lt (ds : Str) (hd : ∀ c ∈ ds, c.isDigit = true) :
    digitsToNat ds < 10 ^ ds.length := by
  rw [digitsToNat_eq_ofDigits]
  have h := Nat.ofDigits_lt_base_pow_length (b := 10) (l := (ds.map charVal).reverse)
    (by norm_num) ?_
  · simpa using h
  · intro x hx
    simp only [List.mem_reverse, List.mem_map] at hx
    obtain ⟨c, hc, rfl⟩ := hx
    exact charVal_lt_ten (hd c hc)

lemma digitsToNat_zero_cons (t : Str) : digitsToNat ('0' :: t) = digitsToNat t := by
  unfold digitsToNat
  simp only [List.foldl_cons]
  have h0 : 10 * 0 + charVal '0' = 0 := rfl
  rw [h0]

lemma natReprAux_eq (fuel : Nat) : ∀ n : Nat, n ≤ fuel →
    natReprAux fuel n = (Nat.digits 10 n).map digitChar := by
  induction fuel with
  | zero =>
    intro n hn
    interval_cases n
    simp [natReprAux]
  | succ fuel ih =>
    intro n hn
    cases n with
    | zero => simp [natReprAux]
    | succ m =>
      rw [natReprAux, Nat.digits_def' (by norm_num) (Nat.succ_pos m), List.map_cons]
      congr 1
      exact ih _ (by
        have : (m + 1) / 10 < m + 1 := Nat.div_lt_self (Nat.succ_pos m) (by norm_num)
        omega)

lemma natRepr_eq (n : Nat) (hn : n ≠ 0) :
    natRepr n = ((Nat.digits 10 n).map digitChar).reverse := by
  unfold natRepr
  rw [if_neg hn, natReprAux_eq n n le_rfl]

lemma natRepr_length_le {n k : Nat} (hk : 1 ≤ k) (h : n < 10 ^ k) :
    (natRepr n).length ≤ k := by
  by_cases h0 : n = 0
  · subst h0
    simpa [natRepr] using hk
  · rw [natRepr_eq n h0]
    simp only [List.length_reverse, List.length_map]
    rw [Nat.digits_len 10 n (by norm_num) h0]
    have := Nat.log_lt_of_lt_pow h0 h
    omega

/-- Round trip: a nonempty all-digit string with no superfluous leading zero
is recovered by `str(int(...))`. -/
lemma natRepr_digitsToNat (ds : Str) (hne : ds ≠ []) (hd : ∀ c ∈ ds, c.isDigit = true)
    (hlead : ds.head? ≠ some '0' ∨ ds = ['0']) :
    natRepr (digitsToNat ds) = ds := by
  rcases hlead with hlead | rfl
  · obtain ⟨c, t, rfl⟩ := List.exists_cons_of_ne_nil hne
    have hc : c.isDigit = true := hd c (List.mem_cons_self c t)
    have hc0 : c ≠ '0' := by
      intro h
      subst h
      exact hlead rfl
    set L : List Nat := ((c :: t).map charVal).reverse with hL
    have hLdig : ∀ l ∈ L, l < 10 := by
      intro x hx
      simp only [hL, List.mem_reverse, List.mem_map] at hx
      obtain ⟨d, hdm, rfl⟩ := hx
      exact charVal_lt_ten (hd d hdm)
    have hLne : L ≠ [] := by simp [hL]
    have hLlast : ∀ h : L ≠ [], L.getLast h ≠ 0 := by
      intro h
      have h1 : L.getLast? = some (charVal c) := by
        rw [hL, List.getLast?_reverse, List.head?_map]
        simp
      have h2 : L.getLast? = some (L.getLast h) := List.getLast?_eq_getLast L h
      rw [h1] at h2
      have : charVal c = L.getLast h := by injection h2
      rw [← this]
      intro hzero
      exact hc0 ((charVal_zero_iff hc).mp hzero)
    have hdig : Nat.digits 10 (digitsToNat (c :: t)) = L := by
      rw [digitsToNat_eq_ofDigits]
      exact Nat.digits_ofDigits 10 (by norm_num) L hLdig hLlast
    have hn0 : digitsToNat (c :: t) ≠ 0 := by
      intro h
      rw [h] at hdig
      simp at hdig
      exact hLne hdig
    rw [natRepr_eq _ hn0, hdig, hL, List.map_reverse, List.reverse_reverse,
      List.map_map]
    have hcongr : ∀ d ∈ c :: t, (digitChar ∘ charVal) d = id d := by
      intro d hdm
      exact digitChar_charVal (hd d hdm)
    rw [List.map_congr_left hcongr, List.map_id]
  · rfl

/-- A position strictly inside the leading digit run holds a digit. -/
lemma drop_head_in_run (v : Str) {k : Nat} (hk : k < (v.takeWhile Char.isDigit).length) :
    ∃ c, (v.drop k).head? = some c ∧ c.isDigit = true := by
  have hsplit : v.takeWhile Char.isDigit ++ v.dropWhile Char.isDigit = v :=
    List.takeWhile_append_dropWhile _ _
  have h1 : (v.drop k).head? = v[k]? := List.head?_drop v k
  have h2 : v[k]? = (v.takeWhile Char.isDigit)[k]? := by
    conv_lhs => rw [← hsplit]
    rw [List.getElem?_append, if_pos hk]
  have h3 : (v.takeWhile Char.isDigit)[k]? = some ((v.takeWhile Char.isDigit).get ⟨k, hk⟩) := by
    rw [List.getElem?_eq_getElem hk]
    rfl
  refine ⟨(v.takeWhile Char.isDigit).get ⟨k, hk⟩, by rw [h1, h2, h3], ?_⟩
  exact List.mem_takeWhile_imp (List.get_mem _ _ hk)

/-- The separator check of `parse_v`, isolated: the result is a
malformed-separator failure exactly when the character after the first
`len(str(draw_number))` characters is not `'s'`. -/
lemma parse_v_not_malformedSeparator_iff (v : Str) (hrun : v.takeWhile Char.isDigit ≠ []) :
    (parse_v v ≠ .error .malformedSeparator) ↔
      (v.drop (natRepr (digitsToNat (v.takeWhile Char.isDigit))).length).head? = some 's' := by
  constructor
  · intro h
    by_contra hs
    apply h
    simp only [parse_v]
    rw [if_neg hrun, if_neg hs]
  · intro hs
    simp only [parse_v]
    rw [if_neg hrun, if_pos hs]
    split
    · simp
    · simp

/-- Either the leading digit run has no superfluous leading zero (and
`str(int(run))` recovers it), or the decimal representation of its value is
strictly shorter than the run. -/
lemma run_repr_cases (v : Str) (hrun : v.takeWhile Char.isDigit ≠ []) :
    natRepr (digitsToNat (v.takeWhile Char.isDigit)) = v.takeWhile Char.isDigit ∨
    (natRepr (digitsToNat (v.takeWhile Char.isDigit))).length <
      (v.takeWhile Char.isDigit).length := by
  have hd : ∀ c ∈ v.takeWhile Char.isDigit, c.isDigit = true :=
    fun c hc => List.mem_takeWhile_imp hc
  obtain ⟨c, t, hct⟩ := List.exists_cons_of_ne_nil hrun
  by_cases hc : c = '0'
  · subst hc
    cases t with
    | nil =>
      left
      rw [hct]
      exact natRepr_digitsToNat _ (by simp) (by rw [← hct]; exact fun c hc => hd c hc)
        (Or.inr rfl)
    | cons d t' =>
      right
      rw [hct, digitsToNat_zero_cons]
      have hdt : ∀ x ∈ d :: t', x.isDigit = true := by
        intro x hx
        exact hd x (by rw [hct]; exact List.mem_cons_of_mem _ hx)
      have hlt : digitsToNat (d :: t') < 10 ^ (d :: t').length := digitsToNat_lt _ hdt
      have hle := natRepr_length_le (by simp) hlt
      simp only [List.length_cons] at hle ⊢
      omega
  · left
    apply natRepr_digitsToNat _ hrun hd
    left
    rw [hct]
    simp [hc]

/-- `parse_qr_url` defers to `parse_v` on the extracted `v` value. -/
lemma parse_qr_url_eq_parse_v {url v : Str} (h : getV? url = some v) :
    parse_qr_url url = parse_v v := by
  unfold parse_qr_url
  rw [h]

/-! ### Claim theorems -/

/-- C1 (amended): for a URL whose `v` value begins with a run of decimal
digits, decode takes the numeric value of the longest leading digit run as
the draw number; it succeeds past the separator check exactly when the digit
run has no superfluous leading zeros (it equals `str(draw_number)`) AND the
remainder of the value immediately after the digit run begins with `'s'`;
otherwise it fails with a malformed-separator failure.  (The original claim
omitted the leading-zero condition: the code drops only
`len(str(int(run)))` characters, not the whole run.) -/
theorem parse_qr_url_separator_characterization (url v : Str) (hv : getV? url = some v)
    (hrun : v.takeWhile Char.isDigit ≠ []) :
    (∀ r, parse_qr_url url = Except.ok r →
        r.draw_number = digitsToNat (v.takeWhile Char.isDigit)) ∧
    ((parse_qr_url url ≠ Except.error DecodeError.malformedSeparator) ↔
      (natRepr (digitsToNat (v.takeWhile Char.isDigit)) = v.takeWhile Char.isDigit ∧
        (v.drop (v.takeWhile Char.isDigit).length).head? = some 's')) := by
  rw [parse_qr_url_eq_parse_v hv]
  constructor
  · intro r hr
    exact (parse_v_ok hr).2.1
  · rw [parse_v_not_malformedSeparator_iff v hrun]
    constructor
    · intro hs
      rcases run_repr_cases v hrun with heq | hlt
      · exact ⟨heq, by rw [← heq]; exact hs⟩
      · obtain ⟨c, hc, hcd⟩ := drop_head_in_run v hlt
        rw [hc] at hs
        have : c = 's' := by injection hs
        subst this
        cases hcd
    · rintro ⟨heq, hs⟩
      rw [heq]
      exact hs

/-- C1 counterexample: for `v = "00s040913182433"` the remainder immediately
after the digit run `"00"` begins with `'s'`, yet the decode fails with a
malformed-separator failure (the code drops only `len(str(0)) = 1`
character). -/
theorem parse_qr_url_separator_leading_zero_counterexample :
    getV? "http://x/?v=00s040913182433".data = some "00s040913182433".data ∧
    "00s040913182433".data.takeWhile Char.isDigit = "00".data ∧
    ("00s040913182433".data.drop 2).head? = some 's' ∧
    parse_qr_url "http://x/?v=00s040913182433".data =
      Except.error DecodeError.malformedSeparator :=
  ⟨rfl, rfl, rfl, rfl⟩

/-- Witness for `parse_qr_url_separator_characterization` at the concrete URL
`"http://x/?v=1194s040913182433"`. -/
theorem parse_qr_url_separator_characterization_witness :
    getV? "http://x/?v=1194s040913182433".data = some "1194s040913182433".data ∧
    "1194s040913182433".data.takeWhile Char.isDigit ≠ [] ∧
    parse_qr_url "http://x/?v=1194s040913182433".data ≠
      Except.error DecodeError.malformedSeparator := by
  refine ⟨rfl, by decide, ?_⟩
  exact (parse_qr_url_separator_characterization "http://x/?v=1194s040913182433".data
    "1194s040913182433".data rfl (by decide)).2.mpr ⟨by decide, by decide⟩

/-- C10: if the leading digit run of the `v` value denotes the number zero,
the decode always returns a failure; decode success requires a nonzero parsed
draw number (the final guard `if draw_number and ...` of line 119). -/
theorem parse_qr_url_zero_draw_fails (url v : Str) (hv : getV? url = some v)
    (hrun : v.takeWhile Char.isDigit ≠ [])
    (hz : digitsToNat (v.takeWhile Char.isDigit) = 0) :
    ∃ e, parse_qr_url url = Except.error e := by
  rw [parse_qr_url_eq_parse_v hv]
  cases h : parse_v v with
  | error e => exact ⟨e, rfl⟩
  | ok r =>
    obtain ⟨-, hdraw, hnz, -⟩ := parse_v_ok h
    rw [hdraw] at hnz
    exact absurd hz hnz

/-- Witness for `parse_qr_url_zero_draw_fails` at
`"http://x/?v=0s040913182433"`: the separator is present and the single
segment parses to a valid combination, yet the decode fails. -/
theorem parse_qr_url_zero_draw_fails_witness :
    getV? "http://x/?v=0s040913182433".data = some "0s040913182433".data ∧
    "0s040913182433".data.takeWhile Char.isDigit ≠ [] ∧
    digitsToNat ("0s040913182433".data.takeWhile Char.isDigit) = 0 ∧
    ("0s040913182433".data.drop 1).head? = some 's' ∧
    collectCombos ["040913182433".data] = [[4, 9, 13, 18, 24, 33]] ∧
    ∃ e, parse_qr_url "http://x/?v=0s040913182433".data = Except.error e := by
  refine ⟨rfl, by decide, by decide, rfl, by decide, ?_⟩
  exact parse_qr_url_zero_draw_fails "http://x/?v=0s040913182433".data
    "0s040913182433".data rfl (by decide) (by decide)

/-- C2 (amended): every combination in a successful decode result has exactly
6 integers, each in `[1, 45]`, sorted ascending (not necessarily distinct —
the code never checks uniqueness); a segment yields a combination exactly when
it produced exactly 6 valid 2-digit numbers, and the other segments among the
first five are dropped without failing the whole decode. -/
theorem parse_qr_url_combo_shape (url v : Str) (hv : getV? url = some v)
    (r : ParseResult) (hr : parse_qr_url url = Except.ok r) :
    (∀ combo ∈ r.numbers,
        combo.length = 6 ∧ List.Sorted (· ≤ ·) combo ∧ ∀ n ∈ combo, 1 ≤ n ∧ n ≤ 45) ∧
    r.numbers =
      (((splitOnChar 's' (v.drop (natRepr r.draw_number).length)).drop 1).take 5).filterMap
        segCombo? := by
  rw [parse_qr_url_eq_parse_v hv] at hr
  obtain ⟨-, -, -, -, hnum, -⟩ := parse_v_ok hr
  rw [collectCombos_eq] at hnum
  refine ⟨?_, hnum⟩
  intro combo hc
  rw [hnum] at hc
  obtain ⟨seg, -, hseg⟩ := List.mem_filterMap.mp hc
  exact segCombo?_props hseg

/-- C2 counterexample: the decode of `"http://x/?v=1s040404040404"` succeeds
and returns the combination `[4, 4, 4, 4, 4, 4]`, whose entries are not
distinct — the decoder never enforces uniqueness. -/
theorem parse_qr_url_duplicate_combo_counterexample :
    parse_qr_url "http://x/?v=1s040404040404".data =
      Except.ok ⟨1, [[4, 4, 4, 4, 4, 4]]⟩ ∧
    ¬ ([4, 4, 4, 4, 4, 4] : List Nat).Nodup :=
  ⟨rfl, by decide⟩

/-- Witness for `parse_qr_url_combo_shape` at
`"http://x/?v=1194s040913182433"`. -/
theorem parse_qr_url_combo_shape_witness :
    getV? "http://x/?v=1194s040913182433".data = some "1194s040913182433".data ∧
    parse_qr_url "http://x/?v=1194s040913182433".data =
      Except.ok ⟨1194, [[4, 9, 13, 18, 24, 33]]⟩ ∧
    ∀ combo ∈ (ParseResult.mk 1194 [[4, 9, 13, 18, 24, 33]]).numbers,
      combo.length = 6 ∧ List.Sorted (· ≤ ·) combo ∧ ∀ n ∈ combo, 1 ≤ n ∧ n ≤ 45 := by
  refine ⟨rfl, rfl, ?_⟩
  exact (parse_qr_url_combo_shape "http://x/?v=1194s040913182433".data
    "1194s040913182433".data rfl ⟨1194, [[4, 9, 13, 18, 24, 33]]⟩ rfl).1

/-- C3: `check_winning` returns exactly the tier determined by
`matchCount = |ticket ∩ winning|` and `hasBonus = bonus ∈ ticket`, with the
documented precedence: 6 matches → 1st; 5 matches with bonus → 2nd; 5 matches
without bonus → 3rd; 4 matches → 4th; 3 matches → 5th; anything else →
no-win. -/
theorem check_winning_tier_characterization (user winning : List Nat) (bonus : Nat) :
    (check_winning user winning bonus = tier1 ↔
      (user.toFinset ∩ winning.toFinset).card = 6) ∧
    (check_winning user winning bonus = tier2 ↔
      ((user.toFinset ∩ winning.toFinset).card = 5 ∧ bonus ∈ user.toFinset)) ∧
    (check_winning user winning bonus = tier3 ↔
      ((user.toFinset ∩ winning.toFinset).card = 5 ∧ bonus ∉ user.toFinset)) ∧
    (check_winning user winning bonus = tier4 ↔
      (user.toFinset ∩ winning.toFinset).card = 4) ∧
    (check_winning user winning bonus = tier5 ↔
      (user.toFinset ∩ winning.toFinset).card = 3) ∧
    (check_winning user winning bonus = nolose ↔
      ((user.toFinset ∩ winning.toFinset).card ≠ 6 ∧
        (user.toFinset ∩ winning.toFinset).card ≠ 5 ∧
        (user.toFinset ∩ winning.toFinset).card ≠ 4 ∧
        (user.toFinset ∩ winning.toFinset).card ≠ 3)) := by
  obtain ⟨d12, d13, d14, d15, d1n, d23, d24, d25, d2n, d34, d35, d3n, d45, d4n, d5n⟩ :
      tier1 ≠ tier2 ∧ tier1 ≠ tier3 ∧ tier1 ≠ tier4 ∧ tier1 ≠ tier5 ∧ tier1 ≠ nolose ∧
      tier2 ≠ tier3 ∧ tier2 ≠ tier4 ∧ tier2 ≠ tier5 ∧ tier2 ≠ nolose ∧
      tier3 ≠ tier4 ∧ tier3 ≠ tier5 ∧ tier3 ≠ nolose ∧
      tier4 ≠ tier5 ∧ tier4 ≠ nolose ∧ tier5 ≠ nolose := by decide
  simp only [check_winning]
  split_ifs with h1 h2 h3 h4 h5 <;>
    refine ⟨?_, ?_, ?_, ?_, ?_, ?_⟩ <;>
    constructor <;>
    intro hX <;>
    first
      | rfl
      | tauto
      | omega

/-- C6: decoding the documented example URL yields draw number 1194 and the
single combination `[4, 9, 13, 18, 24, 33]`, which the app assigns to label
`"A"`. -/
theorem parse_qr_url_example_1194 :
    parse_qr_url "http://x/?v=1194s040913182433".data =
      Except.ok ⟨1194, [[4, 9, 13, 18, 24, 33]]⟩ ∧
    label_combinations [[4, 9, 13, 18, 24, 33]] = [(['A'], [4, 9, 13, 18, 24, 33])] :=
  ⟨rfl, rfl⟩

/-- C7: the decoder is a total function — on every input string it returns
either a success value or a typed failure value (the Python function wraps
its body in a catch-all `try/except` and always returns a value; the printed
diagnostics are its only effect). -/
theorem parse_qr_url_total (url : Str) :
    (∃ r, parse_qr_url url = Except.ok r) ∨ (∃ e, parse_qr_url url = Except.error e) := by
  cases h : parse_qr_url url with
  | ok r => exact Or.inl ⟨r, rfl⟩
  | error e => exact Or.inr ⟨e, rfl⟩

/-! ### The best-of reduction (claim C8) -/

lemma check_winning_mem_tiers (u w : List Nat) (b : Nat) :
    check_winning u w b ∈ [tier1, tier2, tier3, tier4, tier5, nolose] := by
  simp only [check_winning]
  split_ifs <;> simp

/-- On the evaluator's output alphabet, one step of the best-of loop keeps the
tier of smaller rank (`tierNum` agrees with `tierRank` on winning tiers, and
`"낙첨"` has the largest rank). -/
lemma bestStep_eq_min (w : List Nat) (b : Nat) (best : Str) (lv : Str × List Nat)
    (hbest : best ∈ [tier1, tier2, tier3, tier4, tier5, nolose])
    (ht : check_winning lv.2 w b ∈ [tier1, tier2, tier3, tier4, tier5, nolose]) :
    bestStep w b best lv =
      if tierRank (check_winning lv.2 w b) < tierRank best then check_winning lv.2 w b
      else best := by
  simp only [bestStep]
  revert ht
  generalize check_winning lv.2 w b = t
  intro ht
  fin_cases hbest <;> fin_cases ht <;> decide

lemma best_result_fold_invariant (w : List Nat) (b : Nat) (l : List (Str × List Nat)) :
    ∀ acc : Str, acc ∈ [tier1, tier2, tier3, tier4, tier5, nolose] →
      (l.foldl (bestStep w b) acc = acc ∨
        ∃ p ∈ l, l.foldl (bestStep w b) acc = check_winning p.2 w b) ∧
      tierRank (l.foldl (bestStep w b) acc) ≤ tierRank acc ∧
      (∀ p ∈ l, tierRank (l.foldl (bestStep w b) acc) ≤ tierRank (check_winning p.2 w b)) := by
  induction l with
  | nil =>
    intro acc hacc
    exact ⟨Or.inl rfl, le_refl _, by simp⟩
  | cons p l ih =>
    intro acc hacc
    have ht := check_winning_mem_tiers p.2 w b
    have hstep := bestStep_eq_min w b acc p hacc ht
    have hacc' : bestStep w b acc p ∈ [tier1, tier2, tier3, tier4, tier5, nolose] := by
      rw [hstep]
      split
      · exact ht
      · exact hacc
    obtain ⟨hor, hle, hall⟩ := ih (bestStep w b acc p) hacc'
    rw [List.foldl_cons]
    have hle_acc : tierRank (bestStep w b acc p) ≤ tierRank acc := by
      rw [hstep]
      split <;> omega
    have hle_t : tierRank (bestStep w b acc p) ≤ tierRank (check_winning p.2 w b) := by
      rw [hstep]
      split <;> omega
    refine ⟨?_, le_trans hle hle_acc, ?_⟩
    · rcases hor with he | ⟨q, hq, he⟩
      · rw [he, hstep]
        split
        · exact Or.inr ⟨p, List.mem_cons_self p l, rfl⟩
        · exact Or.inl rfl
      · exact Or.inr ⟨q, List.mem_cons_of_mem p hq, he⟩
    · intro q hq
      rcases List.mem_cons.mp hq with rfl | hq
      · exact le_trans hle hle_t
      · exact hall q hq

/-- C8: the best-of fold over a bundle returns the best (lowest-ordinal) tier
achieved by any combination, with `"낙첨"` (no-win) as the starting/identity
element; in particular it returns no-win when no combination wins. -/
theorem best_result_is_best_tier (combos : List (Str × List Nat))
    (w : List Nat) (b : Nat) :
    (best_result combos w b = nolose ∨
      ∃ p ∈ combos, best_result combos w b = check_winning p.2 w b) ∧
    (∀ p ∈ combos, tierRank (best_result combos w b) ≤ tierRank (check_winning p.2 w b)) ∧
    ((∀ p ∈ combos, check_winning p.2 w b = nolose) → best_result combos w b = nolose) := by
  unfold best_result
  obtain ⟨hor, -, hall⟩ :=
    best_result_fold_invariant w b combos nolose (by simp)
  refine ⟨hor, hall, ?_⟩
  intro hnone
  rcases hor with he | ⟨p, hp, he⟩
  · exact he
  · rw [he, hnone p hp]

/-! ### Random sampling and generation (claims C4, C5, C9) -/

lemma random_sample_subset (g : RandSrc) :
    ∀ (k step : Nat) (pool : List Nat), random_sample g step k pool ⊆ pool := by
  intro k
  induction k with
  | zero =>
    intro step pool
    simp [random_sample]
  | succ k ih =>
    intro step pool
    cases pool with
    | nil => simp [random_sample]
    | cons x xs =>
      simp only [random_sample]
      intro a ha
      rcases List.mem_cons.mp ha with rfl | ha
      · have hi : g step % (x :: xs).length < (x :: xs).length :=
          Nat.mod_lt _ (by simp)
        rw [List.getD_eq_getElem _ _ hi]
        exact List.getElem_mem hi
      · exact List.erase_subset _ _ (ih (step + 1) _ ha)

lemma random_sample_length (g : RandSrc) :
    ∀ (k step : Nat) (pool : List Nat), k ≤ pool.length →
      (random_sample g step k pool).length = k := by
  intro k
  induction k with
  | zero =>
    intro step pool _
    simp [random_sample]
  | succ k ih =>
    intro step pool hk
    cases pool with
    | nil => simp at hk
    | cons x xs =>
      simp only [random_sample]
      have hi : g step % (x :: xs).length < (x :: xs).length :=
        Nat.mod_lt _ (by simp)
      have hmem : (x :: xs).getD (g step % (x :: xs).length) 0 ∈ x :: xs := by
        rw [List.getD_eq_getElem _ _ hi]
        exact List.getElem_mem hi
      have hklen :
          k ≤ ((x :: xs).erase ((x :: xs).getD (g step % (x :: xs).length) 0)).length := by
        rw [List.length_erase_of_mem hmem]
        simp only [List.length_cons] at hk ⊢
        omega
      rw [List.length_cons, ih (step + 1) _ hklen]

lemma random_sample_nodup (g : RandSrc) :
    ∀ (k step : Nat) (pool : List Nat), pool.Nodup →
      (random_sample g step k pool).Nodup := by
  intro k
  induction k with
  | zero =>
    intro step pool _
    simp [random_sample]
  | succ k ih =>
    intro step pool hnd
    cases pool with
    | nil => simp [random_sample]
    | cons x xs =>
      simp only [random_sample, List.nodup_cons]
      set chosen := (x :: xs).getD (g step % (x :: xs).length) 0 with hchosen
      constructor
      · intro hmem
        have hsub := random_sample_subset g k (step + 1) ((x :: xs).erase chosen) hmem
        exact absurd ((hnd.mem_erase_iff).mp hsub).1 (by simp)
      · exact ih (step + 1) _ (List.Nodup.erase chosen hnd)

lemma availableNumbers_nodup (exclude : List Nat) : (availableNumbers exclude).Nodup :=
  List.Nodup.filter _ (List.nodup_range' _ _)

lemma availableNumbers_mem {exclude : List Nat} {n : Nat} :
    n ∈ availableNumbers exclude ↔ (1 ≤ n ∧ n ≤ 45) ∧ n ∉ exclude := by
  unfold availableNumbers
  rw [List.mem_filter, List.mem_range'_1]
  constructor
  · rintro ⟨hr, hn⟩
    exact ⟨⟨hr.1, by omega⟩, by simpa using hn⟩
  · rintro ⟨hr, hn⟩
    exact ⟨⟨hr.1, by omega⟩, by simpa using hn⟩

lemma availableNumbers_nil : availableNumbers [] = List.range' 1 45 := by
  unfold availableNumbers
  rw [List.filter_eq_self]
  intro a _
  simp

/-- The lower bound on the remaining pool size forced by `|exclude| ≤ 39`. -/
lemma availableNumbers_length_ge (exclude : List Nat) (h : exclude.toFinset.card ≤ 39) :
    6 ≤ (availableNumbers exclude).length := by
  have hsum :=
    List.length_eq_countP_add_countP (fun n => decide (n ∉ exclude)) (List.range' 1 45)
  have hcong :
      List.countP (fun a => decide ¬(decide (a ∉ exclude) = true)) (List.range' 1 45) =
        List.countP (fun a => decide (a ∈ exclude)) (List.range' 1 45) := by
    apply List.countP_congr
    intro a _
    by_cases ha : a ∈ exclude <;> simp [ha]
  have hmemlen :
      List.countP (fun a => decide (a ∈ exclude)) (List.range' 1 45) ≤ 39 := by
    rw [List.countP_eq_length_filter]
    have hnd : ((List.range' 1 45).filter (fun a => decide (a ∈ exclude))).Nodup :=
      List.Nodup.filter _ (List.nodup_range' _ _)
    have hsub :
        ((List.range' 1 45).filter (fun a => decide (a ∈ exclude))).toFinset ⊆
          exclude.toFinset := by
      intro x hx
      rw [List.mem_toFinset, List.mem_filter] at hx
      rw [List.mem_toFinset]
      simpa using hx.2
    calc ((List.range' 1 45).filter (fun a => decide (a ∈ exclude))).length
        = ((List.range' 1 45).filter (fun a => decide (a ∈ exclude))).toFinset.card :=
          (List.toFinset_card_of_nodup hnd).symm
      _ ≤ exclude.toFinset.card := Finset.card_le_card hsub
      _ ≤ 39 := h
  have havail : (availableNumbers exclude).length =
      List.countP (fun n => decide (n ∉ exclude)) (List.range' 1 45) := by
    unfold availableNumbers
    rw [List.countP_eq_length_filter]
  have hrange : (List.range' 1 45).length = 45 := by simp
  omega

/-- A sorted 6-draw from a duplicate-free pool of size at least 6: length 6,
no duplicates, sorted, all members of the pool. -/
lemma sample_sorted_props (g : RandSrc) (step : Nat) (pool : List Nat)
    (hnd : pool.Nodup) (hlen : 6 ≤ pool.length) :
    (pySorted (random_sample g step 6 pool)).length = 6 ∧
    (pySorted (random_sample g step 6 pool)).Nodup ∧
    List.Sorted (· ≤ ·) (pySorted (random_sample g step 6 pool)) ∧
    ∀ n ∈ pySorted (random_sample g step 6 pool), n ∈ pool := by
  refine ⟨?_, ?_, pySorted_sorted _, ?_⟩
  · rw [pySorted_length, random_sample_length g 6 step pool hlen]
  · exact ((pySorted_perm _).nodup_iff).mpr (random_sample_nodup g 6 step pool hnd)
  · intro n hn
    exact random_sample_subset g 6 step pool (pySorted_mem.mp hn)

lemma mem_range'_bounds {n : Nat} (h : n ∈ List.range' 1 45) : 1 ≤ n ∧ n ≤ 45 := by
  rw [List.mem_range'_1] at h
  omega

lemma map_getD_range_eq_take {α : Type} (L : List α) (d : α) :
    ∀ count, count ≤ L.length →
      (List.range count).map (fun i => L.getD i d) = L.take count := by
  intro count
  induction count with
  | zero => simp
  | succ n ih =>
    intro h
    have hn : n < L.length := by omega
    rw [List.range_succ, List.map_append, ih (by omega)]
    simp only [List.take_succ, List.getElem?_eq_getElem hn, List.getD_eq_getElem L d hn,
      Option.toList_some, List.map_cons, List.map_nil]

/-- C4 (amended): when fewer than 6 numbers of `{1..45}` remain after
exclusion, both generators return a normal empty result — `[]` (resp. the
empty dict) — rather than a typed error; no error value exists on this path
in the code. -/
theorem generate_insufficient_pool_empty (g : RandSrc) (exclude : List Nat) (count : Nat)
    (h : (availableNumbers exclude).length < 6) :
    generate_lotto_numbers g exclude count =
      (if count = 1 then GenResult.single [] else GenResult.multi []) ∧
    generate_excluding_numbers g exclude count = [] := by
  have hx : exclude ≠ [] := by
    intro hnil
    rw [hnil, availableNumbers_nil] at h
    simp at h
  constructor
  · simp only [generate_lotto_numbers]
    rw [if_pos hx, if_pos h]
  · simp only [generate_excluding_numbers]
    rw [if_pos h]

/-- C4 counterexample: excluding `{1..40}` leaves 5 numbers; the generator
returns the empty list / empty dict — a normal empty result, not a typed
`InsufficientPoolError` (the result type of the code has no error at all on
this path). -/
theorem generate_insufficient_pool_counterexample :
    (availableNumbers (List.range' 1 40)).length < 6 ∧
    generate_lotto_numbers g0 (List.range' 1 40) 1 = GenResult.single [] ∧
    generate_excluding_numbers g0 (List.range' 1 40) 5 = [] :=
  ⟨by decide, by decide, by decide⟩

/-- Witness for `generate_insufficient_pool_empty` at `exclude = {1..40}`,
`count = 2`. -/
theorem generate_insufficient_pool_empty_witness :
    (availableNumbers (List.range' 1 40)).length < 6 ∧
    generate_lotto_numbers g0 (List.range' 1 40) 2 = GenResult.multi [] ∧
    generate_excluding_numbers g0 (List.range' 1 40) 2 = [] := by
  have h := generate_insufficient_pool_empty g0 (List.range' 1 40) 2 (by decide)
  refine ⟨by decide, ?_, h.2⟩
  rw [h.1]
  decide

/-- C5 (amended): for `count` in `[1, 5]` and no exclusion, the generator
produces exactly `count` combinations, each a sorted 6-element sequence of
distinct integers in `[1, 45]`; for `count ≥ 2` they are assigned to the
labels `"A", "B", ...` in generation order, while for `count = 1` the result
is the single bare combination with no label. -/
theorem generate_count_bundle_shape (g : RandSrc) (count : Nat)
    (h1 : 1 ≤ count) (h5 : count ≤ 5) :
    (count = 1 → ∃ ns, generate_lotto_numbers g [] count = GenResult.single ns ∧
      ns.length = 6 ∧ ns.Nodup ∧ List.Sorted (· ≤ ·) ns ∧ ∀ n ∈ ns, 1 ≤ n ∧ n ≤ 45) ∧
    (2 ≤ count → ∃ combos, generate_lotto_numbers g [] count = GenResult.multi combos ∧
      combos.length = count ∧ combos.map Prod.fst = labels.take count ∧
      ∀ p ∈ combos, p.2.length = 6 ∧ p.2.Nodup ∧ List.Sorted (· ≤ ·) p.2 ∧
        ∀ n ∈ p.2, 1 ≤ n ∧ n ≤ 45) := by
  have hpool_nd : (List.range' 1 45).Nodup := List.nodup_range' _ _
  have hpool_len : 6 ≤ (List.range' 1 45).length := by simp
  constructor
  · intro hc1
    subst hc1
    have hgen : generate_lotto_numbers g [] 1 =
        GenResult.single (pySorted (random_sample g 0 6 (List.range' 1 45))) := by
      simp [generate_lotto_numbers]
    obtain ⟨hl, hnd, hs, hmem⟩ := sample_sorted_props g 0 _ hpool_nd hpool_len
    exact ⟨_, hgen, hl, hnd, hs, fun n hn => mem_range'_bounds (hmem n hn)⟩
  · intro hc2
    have hne1 : count ≠ 1 := by omega
    have hgen : generate_lotto_numbers g [] count =
        GenResult.multi ((List.range count).map
          (fun i => (labels.getD i [],
            pySorted (random_sample g (6 * i) 6 (List.range' 1 45))))) := by
      simp [generate_lotto_numbers, hne1]
    refine ⟨_, hgen, by simp, ?_, ?_⟩
    · rw [List.map_map]
      have hfun : (Prod.fst ∘ fun i => ((labels.getD i [] : Str),
          pySorted (random_sample g (6 * i) 6 (List.range' 1 45)))) =
          fun i => labels.getD i [] := rfl
      rw [hfun]
      exact map_getD_range_eq_take labels [] count (by simp [labels]; omega)
    · intro p hp
      obtain ⟨i, -, rfl⟩ := List.mem_map.mp hp
      obtain ⟨hl, hnd, hs, hmem⟩ := sample_sorted_props g (6 * i) _ hpool_nd hpool_len
      exact ⟨hl, hnd, hs, fun n hn => mem_range'_bounds (hmem n hn)⟩

/-- C5 counterexample: for `count = 1` the generator returns a bare sorted
list, not a labelled bundle — no label `"A"` is assigned on this path. -/
theorem generate_count_one_unlabeled_counterexample :
    generate_lotto_numbers g0 [] 1 = GenResult.single [1, 2, 3, 4, 5, 6] ∧
    (generate_lotto_numbers g0 [] 1).hasLabels = false :=
  ⟨by decide, by decide⟩

/-- Witness for `generate_count_bundle_shape` at `count = 2` with the all-zero
stream. -/
theorem generate_count_bundle_shape_witness :
    (1 : Nat) ≤ 2 ∧ (2 : Nat) ≤ 5 ∧
    ∃ combos, generate_lotto_numbers g0 [] 2 = GenResult.multi combos ∧
      combos.length = 2 ∧ combos.map Prod.fst = labels.take 2 ∧
      ∀ p ∈ combos, p.2.length = 6 ∧ p.2.Nodup ∧ List.Sorted (· ≤ ·) p.2 ∧
        ∀ n ∈ p.2, 1 ≤ n ∧ n ≤ 45 := by
  refine ⟨by decide, by decide, ?_⟩
  exact (generate_count_bundle_shape g0 2 (by decide) (by decide)).2 (by decide)

/-- C9: for every exclude set of size at most 39, `generate(1, exclude)`
returns a single combination disjoint from the exclude set: six numbers, each
in `{1..45}` and not excluded. -/
theorem generate_disjoint_from_exclude (g : RandSrc) (exclude : List Nat)
    (h : exclude.toFinset.card ≤ 39) :
    ∃ ns, generate_lotto_numbers g exclude 1 = GenResult.single ns ∧
      ns.length = 6 ∧ ∀ n ∈ ns, (1 ≤ n ∧ n ≤ 45) ∧ n ∉ exclude := by
  by_cases hx : exclude = []
  · subst hx
    have hgen : generate_lotto_numbers g [] 1 =
        GenResult.single (pySorted (random_sample g 0 6 (List.range' 1 45))) := by
      simp [generate_lotto_numbers]
    obtain ⟨hl, -, -, hmem⟩ :=
      sample_sorted_props g 0 _ (List.nodup_range' 1 45) (by simp)
    refine ⟨_, hgen, hl, ?_⟩
    intro n hn
    exact ⟨mem_range'_bounds (hmem n hn), by simp⟩
  · have hlen := availableNumbers_length_ge exclude h
    have hgen : generate_lotto_numbers g exclude 1 =
        GenResult.single (pySorted (random_sample g 0 6 (availableNumbers exclude))) := by
      simp only [generate_lotto_numbers]
      rw [if_pos hx, if_neg (by omega)]
      simp
    obtain ⟨hl, -, -, hmem⟩ :=
      sample_sorted_props g 0 _ (availableNumbers_nodup exclude) hlen
    refine ⟨_, hgen, hl, ?_⟩
    intro n hn
    have := availableNumbers_mem.mp (hmem n hn)
    exact ⟨this.1, this.2⟩

/-- Witness for `generate_disjoint_from_exclude` at `exclude = {1..39}`. -/
theorem generate_disjoint_from_exclude_witness :
    (List.range' 1 39).toFinset.card ≤ 39 ∧
    ∃ ns, generate_lotto_numbers g0 (List.range' 1 39) 1 = GenResult.single ns ∧
      ns.length = 6 ∧ ∀ n ∈ ns, (1 ≤ n ∧ n ≤ 45) ∧ n ∉ List.range' 1 39 := by
  refine ⟨by decide, ?_⟩
  exact generate_disjoint_from_exclude g0 (List.range' 1 39) (by decide)

end Lotto
